import Mathlib

/-!
# Verification of flow-wallet-api core behaviors

Shallow embedding of `flow_helpers/flow_helpers.go` (transaction seal
polling and latest-block lookup) and, for the parts of the repository
whose implementation files are absent (the worker pool, job store, key
manager and account service of the `jobs`/`keys`/`accounts` packages,
visible here only through `main_test.go` and `pkg/store/keystore.go`),
models written from the specification's words.

The Chain Client is modelled as a function from poll index to response,
so that `WaitForSeal`'s polling loop becomes fuel-bounded recursion over
that response stream; a `none` result means the loop did not terminate
within the given fuel.
-/

namespace FlowHelpers

/-- Transaction status as reported by the Chain Client
(`flow.TransactionStatus`). -/
inductive TransactionStatus where
  | unknown
  | pending
  | finalized
  | executed
  | sealed
  | expired
deriving DecidableEq, Repr

/-- A transaction result as returned by `GetTransactionResult`:
a status plus an optional execution error (`flow.TransactionResult`,
fields `Status` and `Error`). -/
structure TransactionResult where
  status : TransactionStatus
  error : Option String
deriving DecidableEq, Repr

/-- One response of the Chain Client to a `GetTransactionResult` call:
either a transport/RPC error, or a transaction result. -/
inductive PollResponse where
  | rpcError (e : String)
  | ok (r : TransactionResult)
deriving DecidableEq, Repr

/-- The error returned by `WaitForSeal`: either a transport/RPC error
from a `GetTransactionResult` call, or the execution error carried by a
polled result (`result.Error`). -/
inductive WaitError where
  | rpc (e : String)
  | execution (e : String)
deriving DecidableEq, Repr

/-- A Chain Client for one transaction id is modelled by the stream of
responses its `GetTransactionResult` gives: `polls n` is the response to
the `(n+1)`-th call. -/
def Client : Type := Nat → PollResponse

/-- The `for result.Status != flow.TransactionStatusSealed` loop of
`WaitForSeal`: `r` is the most recently polled result (already known to
carry no error), `n` the index of the next poll.  Each iteration whose
status is not yet sealed sleeps one second and polls again; the value
`(outcome, polls, sleeps)` counts the `GetTransactionResult` calls and
`time.Sleep` calls made inside the loop.  `none` means the fuel ran out
before the loop returned. -/
def waitForSealLoop (polls : Client) (r : TransactionResult) (n : Nat) :
    Nat → Option (Except WaitError TransactionResult × Nat × Nat)
  | 0 => none
  | fuel + 1 =>
    if r.status = TransactionStatus.sealed then
      some (Except.ok r, 0, 0)
    else
      match polls n with
      | PollResponse.rpcError e => some (Except.error (WaitError.rpc e), 1, 1)
      | PollResponse.ok r' =>
        match r'.error with
        | some e => some (Except.error (WaitError.execution e), 1, 1)
        | none =>
          (waitForSealLoop polls r' (n + 1) fuel).map
            (fun o => (o.1, o.2.1 + 1, o.2.2 + 1))

/-- Function `WaitForSeal` from `flow_helpers.go`: poll once; propagate an RPC
error; propagate a result's execution error; otherwise loop until the
status is sealed.  Returns the outcome together with the total number of
`GetTransactionResult` calls and of `time.Sleep` calls; `none` if the
loop did not finish within `fuel` iterations. -/
def waitForSeal (polls : Client) (fuel : Nat) :
    Option (Except WaitError TransactionResult × Nat × Nat) :=
  match polls 0 with
  | PollResponse.rpcError e => some (Except.error (WaitError.rpc e), 1, 0)
  | PollResponse.ok r =>
    match r.error with
    | some e => some (Except.error (WaitError.execution e), 1, 0)
    | none =>
      (waitForSealLoop polls r 1 fuel).map
        (fun o => (o.1, o.2.1 + 1, o.2.2))

/-- A block identifier (`flow.Identifier`, 32 bytes); the zero value
`flow.Identifier{}` is all zero bytes. -/
structure Identifier where
  bytes : List Nat
deriving DecidableEq, Repr

/-- The zero value `flow.Identifier{}`. -/
def zeroIdentifier : Identifier := ⟨List.replicate 32 0⟩

/-- A block as returned by `GetLatestBlock` (only its `ID` field is
used by the code under study). -/
structure Block where
  id : Identifier
deriving DecidableEq, Repr

/-- A Chain Client's `GetLatestBlock`, taking the `isSealed` flag. -/
def BlockClient : Type := Bool → Except String Block

/-- Function `GetLatestBlockId` from `flow_helpers.go`: call
`GetLatestBlock(ctx, true)`; on error return the zero identifier and
the error, otherwise the block's ID and no error. -/
def getLatestBlockId (c : BlockClient) : Identifier × Option String :=
  match c true with
  | Except.error e => (zeroIdentifier, some e)
  | Except.ok block => (block.id, none)

end FlowHelpers

namespace Jobs

/-- Modelled from the spec: the `jobs` package's job states are absent from
the sources; the spec gives the external shape
`status: "Accepted"|"Complete"|"Failed"` and says a job is created in state
Accepted and mutated exactly once to a terminal state. -/
inductive Status where
  | accepted
  | complete
  | failed
deriving DecidableEq, Repr

/-- A status is terminal when it is Complete or Failed. -/
def Status.isTerminal : Status → Bool
  | Status.accepted => false
  | Status.complete => true
  | Status.failed => true

/-- Modelled from the spec: a Job record — state, result (set only on
success) and error (set only on failure); the `jobs` package is absent from
the sources. -/
structure Job where
  status : Status
  result : Option String
  error : Option String
deriving DecidableEq, Repr

/-- Modelled from the spec: a fresh job as created at enqueue time, in state
Accepted with result and error unset. -/
def newJob : Job := ⟨Status.accepted, none, none⟩

/-- A requested terminal outcome for a job: complete with a result, or fail
with an error. -/
inductive Outcome where
  | completeWith (r : String)
  | failWith (e : String)
deriving DecidableEq, Repr

/-- Modelled from the spec: the Job Store's `Transition(id, newState,
result|error)` operation, whose implementation is absent from the sources:
it atomically moves a job to a terminal state and must reject attempts to
transition an already-terminal job (error, never a silent overwrite). -/
def transition (j : Job) (o : Outcome) : Except String Job :=
  if j.status.isTerminal then
    Except.error "job already in a terminal state"
  else
    match o with
    | Outcome.completeWith r =>
      Except.ok { status := Status.complete, result := some r, error := none }
    | Outcome.failWith e =>
      Except.ok { status := Status.failed, result := none, error := some e }

/-- A sequence of transition attempts against one stored job: a rejected
transition leaves the stored record unchanged. -/
def applyAll (j : Job) : List Outcome → Job
  | [] => j
  | o :: os =>
    applyAll (match transition j o with | Except.ok j' => j' | Except.error _ => j) os

/-- The spec's Job invariant: result and error are mutually exclusive and
both unset until terminal. -/
def Job.wf (j : Job) : Prop :=
  (j.status = Status.accepted → j.result = none ∧ j.error = none) ∧
  (j.status = Status.complete → j.error = none ∧ j.result ≠ none) ∧
  (j.status = Status.failed → j.result = none ∧ j.error ≠ none)

instance (j : Job) : Decidable j.wf := by
  unfold Job.wf; infer_instance

/-- Modelled from the spec: the Worker Pool's admission state — `W` workers
(in-flight slots), backlog capacity `Q`, and the number of outstanding
(in-flight plus queued) jobs; the `jobs` package's pool implementation is
absent from the sources.  Total admissible outstanding jobs is `W + Q`. -/
structure WorkerPool where
  workers : Nat
  backlogCap : Nat
  outstanding : Nat
deriving DecidableEq, Repr

/-- Modelled from the spec: `Submit` — a total (hence never-blocking) step
that either immediately accepts the job (a worker slot or the backlog has
room) or immediately fails with an admission error when both are full. -/
def submit (p : WorkerPool) : WorkerPool × Except String Job :=
  if p.outstanding < p.workers + p.backlogCap then
    ({ p with outstanding := p.outstanding + 1 }, Except.ok newJob)
  else
    (p, Except.error "max capacity reached, try again later")

/-- Whether a submission attempt was accepted. -/
def isAccepted : Except String Job → Bool
  | Except.ok _ => true
  | Except.error _ => false

/-- Submitting `n` jobs in quick succession (no job finishes in between):
returns the pool and the list of acceptance flags in submission order. -/
def submitMany (p : WorkerPool) : Nat → WorkerPool × List Bool
  | 0 => (p, [])
  | n + 1 =>
    let s := submit p
    let rest := submitMany s.1 n
    (rest.1, isAccepted s.2 :: rest.2)

end Jobs

namespace Keys

/-- Modelled from the spec: the mutable signing state of an AccountKey — its
current sequence number; the `keys` package is absent from the sources. -/
structure SigningKey where
  seqNumber : Nat
deriving DecidableEq, Repr

/-- Modelled from the spec: one sign-and-submit step performed while holding
the key's mutual-exclusion scope.  Whether the step succeeds is decided by
the environment (signer/network); a successful signing consumes the key's
current sequence number and advances it by one, a failed one leaves the key
unchanged and consumes nothing. -/
def signAndSubmit (k : SigningKey) (succeeds : Bool) : SigningKey × Option Nat :=
  if succeeds then ({ seqNumber := k.seqNumber + 1 }, some k.seqNumber)
  else (k, none)

/-- Modelled from the spec: N concurrent signing operations against the same
AccountKey are strictly serialized by the per-key mutual-exclusion scope, so
their combined effect is the sequential composition of the individual
sign-and-submit steps in lock-acquisition order.  Returns the final key
state and, per operation, the consumed sequence number (none on failure). -/
def runSerialized (k : SigningKey) : List Bool → SigningKey × List (Option Nat)
  | [] => (k, [])
  | b :: bs =>
    let s := signAndSubmit k b
    let rest := runSerialized s.1 bs
    (rest.1, s.2 :: rest.2)

/-- Modelled from the spec: a stored AccountKey record — owning account
reference, key index, weight, public key descriptor, private key material
reference, sequence number; the `keys` package is absent from the sources. -/
structure AccountKeyRecord where
  accountAddress : String
  index : Nat
  weight : Nat
  publicKey : String
  privateKeyRef : String
  seqNumber : Nat
deriving DecidableEq, Repr

end Keys

namespace Accounts

/-- Modelled from the spec: the account representation returned to callers
of the account service (the `accounts` package is absent from the sources);
its external shape is `{address, createdAt, updatedAt}` plus a key list that
the test requires to be empty (`len(account.Keys) != 0` is an error). -/
structure Account where
  address : String
  keys : List Keys.AccountKeyRecord
deriving DecidableEq, Repr

/-- What an account-creation workflow run produces: the account returned to
the caller and the key records saved into the key subsystem's store. -/
structure CreateResult where
  account : Account
  savedKeys : List Keys.AccountKeyRecord
deriving DecidableEq, Repr

/-- Modelled from the spec: the account-creation Transaction Workflow shared
by the synchronous and asynchronous paths (the `accounts` package is absent
from the sources): a key is generated via the Key Manager, the ledger
assigns the address, the key record is saved inside the key subsystem, and
the account representation handed back to the caller carries no key
material. -/
def createAccount (ledgerAddress : String) (generated : Keys.AccountKeyRecord) :
    CreateResult :=
  { account := { address := ledgerAddress, keys := [] }
  , savedKeys := [{ generated with accountAddress := ledgerAddress }] }

/-- Modelled from the spec: `CreateSync` runs the creation workflow inline
and returns the created account. -/
def createSync (ledgerAddress : String) (generated : Keys.AccountKeyRecord) :
    Account :=
  (createAccount ledgerAddress generated).account

/-- Modelled from the spec: the account later read back (`Details`) from a
completed `CreateAsync` job is the account the workflow produced. -/
def createAsyncDetails (ledgerAddress : String) (generated : Keys.AccountKeyRecord) :
    Account :=
  (createAccount ledgerAddress generated).account

end Accounts

namespace FlowHelpers

/-- All polls before index `i` succeed with no execution error and a
not-yet-sealed status. -/
def cleanUpTo (polls : Client) (i : Nat) : Prop :=
  ∀ j, j < i → ∃ r, polls j = PollResponse.ok r ∧ r.error = none ∧
    r.status ≠ TransactionStatus.sealed

lemma loop_sealed_entry (polls : Client) (r : TransactionResult) (n fuel : Nat)
    (o : Except WaitError TransactionResult) (p s : Nat)
    (h : waitForSealLoop polls r n fuel = some (o, p, s))
    (hs : r.status = TransactionStatus.sealed) : p = 0 := by
  cases fuel with
  | zero => exact absurd h (by simp [waitForSealLoop])
  | succ fuel =>
    rw [waitForSealLoop, if_pos hs] at h
    simp only [Option.some.injEq, Prod.mk.injEq] at h
    omega

lemma loop_success (polls : Client) :
    ∀ (fuel n : Nat) (r r' : TransactionResult) (p s : Nat),
    r.error = none →
    waitForSealLoop polls r n fuel = some (Except.ok r', p, s) →
    r'.status = TransactionStatus.sealed ∧ r'.error = none ∧ s = p ∧
      ((p = 0 ∧ r' = r) ∨ (1 ≤ p ∧ polls (n + p - 1) = PollResponse.ok r')) := by
  intro fuel
  induction fuel with
  | zero => intro n r r' p s _ h; exact absurd h (by simp [waitForSealLoop])
  | succ fuel ih =>
    intro n r r' p s he h
    rw [waitForSealLoop] at h
    by_cases hs : r.status = TransactionStatus.sealed
    · rw [if_pos hs] at h
      simp only [Option.some.injEq, Prod.mk.injEq, Except.ok.injEq] at h
      obtain ⟨h1, h2, h3⟩ := h
      exact ⟨h1 ▸ hs, h1 ▸ he, by omega, Or.inl ⟨h2.symm, h1.symm⟩⟩
    · rw [if_neg hs] at h
      split at h
      · simp only [Option.some.injEq, Prod.mk.injEq] at h
        exact absurd h.1 (by simp)
      · next r2 hpn =>
        split at h
        · simp only [Option.some.injEq, Prod.mk.injEq] at h
          exact absurd h.1 (by simp)
        · next herr =>
          cases hrec : waitForSealLoop polls r2 (n + 1) fuel with
          | none => rw [hrec] at h; exact absurd h (by simp)
          | some val =>
            obtain ⟨o2, p2, s2⟩ := val
            rw [hrec] at h
            simp only [Option.map_some', Option.some.injEq, Prod.mk.injEq] at h
            obtain ⟨ho, hp2, hs2⟩ := h
            subst ho
            obtain ⟨hs', he', hsp, hor⟩ := ih (n + 1) r2 r' p2 s2 herr hrec
            refine ⟨hs', he', by omega, Or.inr ?_⟩
            rcases hor with ⟨hp0, hr⟩ | ⟨hp1, hpoll⟩
            · subst hr
              refine ⟨by omega, ?_⟩
              have hn : n + p - 1 = n := by omega
              rw [hn, hpn]
            · refine ⟨by omega, ?_⟩
              have hn : n + p - 1 = n + 1 + p2 - 1 := by omega
              rw [hn]
              exact hpoll

lemma loop_execError (polls : Client) (i : Nat) (ri : TransactionResult) (e : String)
    (hi : polls i = PollResponse.ok ri) (hie : ri.error = some e) :
    ∀ (fuel : Nat), ∀ (n : Nat) (r : TransactionResult),
    1 ≤ n → n ≤ i →
    (∀ j, n ≤ j → j < i → ∃ r', polls j = PollResponse.ok r' ∧ r'.error = none ∧
      r'.status ≠ TransactionStatus.sealed) →
    r.status ≠ TransactionStatus.sealed →
    i + 1 - n ≤ fuel →
    waitForSealLoop polls r n fuel =
      some (Except.error (WaitError.execution e), i + 1 - n, i + 1 - n) := by
  intro fuel
  induction fuel with
  | zero => intro n r h1 h2 _ _ hf; omega
  | succ fuel ih =>
    intro n r h1 h2 hclean hr hf
    rw [waitForSealLoop, if_neg hr]
    by_cases hni : n = i
    · subst hni
      have h11 : n + 1 - n = 1 := by omega
      rw [h11]
      split
      · next e' heq => rw [hi] at heq; cases heq
      · next r2 heq =>
        rw [hi] at heq
        injection heq with h'
        subst h'
        split
        · next e' heq2 =>
          rw [hie] at heq2
          injection heq2 with h''
          subst h''
          rfl
        · next heq2 => rw [hie] at heq2; cases heq2
    · have hlt : n < i := by omega
      obtain ⟨r2, hp2, he2, hs2⟩ := hclean n (Nat.le_refl n) hlt
      split
      · next e' heq => rw [hp2] at heq; cases heq
      · next r3 heq =>
        rw [hp2] at heq
        injection heq with h'
        subst h'
        split
        · next e' heq2 => rw [he2] at heq2; cases heq2
        · next heq2 =>
          rw [ih (n + 1) r2 (by omega) (by omega)
            (fun j hj1 hj2 => hclean j (by omega) hj2) hs2 (by omega)]
          simp only [Option.map_some']
          have ha : i + 1 - (n + 1) + 1 = i + 1 - n := by omega
          rw [ha]

lemma loop_rpcError (polls : Client) (i : Nat) (e : String)
    (hi : polls i = PollResponse.rpcError e) :
    ∀ (fuel : Nat), ∀ (n : Nat) (r : TransactionResult),
    1 ≤ n → n ≤ i →
    (∀ j, n ≤ j → j < i → ∃ r', polls j = PollResponse.ok r' ∧ r'.error = none ∧
      r'.status ≠ TransactionStatus.sealed) →
    r.status ≠ TransactionStatus.sealed →
    i + 1 - n ≤ fuel →
    waitForSealLoop polls r n fuel =
      some (Except.error (WaitError.rpc e), i + 1 - n, i + 1 - n) := by
  intro fuel
  induction fuel with
  | zero => intro n r h1 h2 _ _ hf; omega
  | succ fuel ih =>
    intro n r h1 h2 hclean hr hf
    rw [waitForSealLoop, if_neg hr]
    by_cases hni : n = i
    · subst hni
      have h11 : n + 1 - n = 1 := by omega
      rw [h11]
      split
      · next e' heq =>
        rw [hi] at heq
        injection heq with h'
        subst h'
        rfl
      · next r2 heq => rw [hi] at heq; cases heq
    · have hlt : n < i := by omega
      obtain ⟨r2, hp2, he2, hs2⟩ := hclean n (Nat.le_refl n) hlt
      split
      · next e' heq => rw [hp2] at heq; cases heq
      · next r3 heq =>
        rw [hp2] at heq
        injection heq with h'
        subst h'
        split
        · next e' heq2 => rw [he2] at heq2; cases heq2
        · next heq2 =>
          rw [ih (n + 1) r2 (by omega) (by omega)
            (fun j hj1 hj2 => hclean j (by omega) hj2) hs2 (by omega)]
          simp only [Option.map_some']
          have ha : i + 1 - (n + 1) + 1 = i + 1 - n := by omega
          rw [ha]

lemma loop_diverge (polls : Client)
    (hall : ∀ m, ∃ r, polls m = PollResponse.ok r ∧ r.error = none ∧
      r.status ≠ TransactionStatus.sealed) :
    ∀ (fuel n : Nat) (r : TransactionResult), r.status ≠ TransactionStatus.sealed →
    waitForSealLoop polls r n fuel = none := by
  intro fuel
  induction fuel with
  | zero => intro n r _; rfl
  | succ fuel ih =>
    intro n r hr
    rw [waitForSealLoop, if_neg hr]
    obtain ⟨r2, hp, he, hs⟩ := hall n
    split
    · next e heq => rw [hp] at heq; cases heq
    · next r3 heq =>
      rw [hp] at heq
      injection heq with h'
      subst h'
      split
      · next e heq2 => rw [he] at heq2; cases heq2
      · rw [ih (n + 1) r2 hs]
        rfl

lemma loop_clean_prefix (polls : Client) :
    ∀ (fuel n : Nat) (r : TransactionResult) (o : Except WaitError TransactionResult)
      (p s : Nat),
    waitForSealLoop polls r n fuel = some (o, p, s) →
    ∀ j, n ≤ j → j + 1 < n + p →
    ∃ r', polls j = PollResponse.ok r' ∧ r'.error = none ∧
      r'.status ≠ TransactionStatus.sealed := by
  intro fuel
  induction fuel with
  | zero => intro n r o p s h; exact absurd h (by simp [waitForSealLoop])
  | succ fuel ih =>
    intro n r o p s h j hnj hjp
    rw [waitForSealLoop] at h
    by_cases hs : r.status = TransactionStatus.sealed
    · rw [if_pos hs] at h
      simp only [Option.some.injEq, Prod.mk.injEq] at h
      obtain ⟨_, h2, _⟩ := h
      omega
    · rw [if_neg hs] at h
      split at h
      · simp only [Option.some.injEq, Prod.mk.injEq] at h
        obtain ⟨_, h2, _⟩ := h
        omega
      · next r2 hpn =>
        split at h
        · simp only [Option.some.injEq, Prod.mk.injEq] at h
          obtain ⟨_, h2, _⟩ := h
          omega
        · next herr =>
          cases hrec : waitForSealLoop polls r2 (n + 1) fuel with
          | none => rw [hrec] at h; exact absurd h (by simp)
          | some val =>
            obtain ⟨o2, p2, s2⟩ := val
            rw [hrec] at h
            simp only [Option.map_some', Option.some.injEq, Prod.mk.injEq] at h
            obtain ⟨ho, hp2, hs2⟩ := h
            by_cases hj : j = n
            · subst hj
              refine ⟨r2, hpn, herr, ?_⟩
              intro hseal
              have hz := loop_sealed_entry polls r2 (j + 1) fuel o2 p2 s2 hrec hseal
              omega
            · exact ih (n + 1) r2 o2 p2 s2 hrec j (by omega) (by omega)

lemma waitForSeal_ok (polls : Client) (fuel : Nat) (r : TransactionResult) (p s : Nat)
    (h : waitForSeal polls fuel = some (Except.ok r, p, s)) :
    r.status = TransactionStatus.sealed ∧ r.error = none ∧ 1 ≤ p ∧ s = p - 1 ∧
      polls (p - 1) = PollResponse.ok r := by
  rw [waitForSeal] at h
  split at h
  · simp only [Option.some.injEq, Prod.mk.injEq] at h
    exact absurd h.1 (by simp)
  · next r0 hp0 =>
    split at h
    · simp only [Option.some.injEq, Prod.mk.injEq] at h
      exact absurd h.1 (by simp)
    · next he0 =>
      cases hrec : waitForSealLoop polls r0 1 fuel with
      | none => rw [hrec] at h; exact absurd h (by simp)
      | some val =>
        obtain ⟨o2, p2, s2⟩ := val
        rw [hrec] at h
        simp only [Option.map_some', Option.some.injEq, Prod.mk.injEq] at h
        obtain ⟨ho, hp2, hs2⟩ := h
        subst ho
        obtain ⟨hs', he', hsp, hor⟩ := loop_success polls fuel 1 r0 r p2 s2 he0 hrec
        rcases hor with ⟨hq0, hr⟩ | ⟨hq1, hpoll⟩
        · subst hr
          refine ⟨hs', he', by omega, by omega, ?_⟩
          have hz : p - 1 = 0 := by omega
          rw [hz, hp0]
        · refine ⟨hs', he', by omega, by omega, ?_⟩
          have hz : p - 1 = 1 + p2 - 1 := by omega
          rw [hz]
          exact hpoll

lemma waitForSeal_execError (polls : Client) (fuel i : Nat) (ri : TransactionResult)
    (e : String) (hclean : cleanUpTo polls i) (hi : polls i = PollResponse.ok ri)
    (hie : ri.error = some e) (hf : i ≤ fuel) :
    waitForSeal polls fuel = some (Except.error (WaitError.execution e), i + 1, i) := by
  rw [waitForSeal]
  cases Nat.eq_zero_or_pos i with
  | inl h0 =>
    subst h0
    split
    · next e' heq => rw [hi] at heq; cases heq
    · next r0 heq =>
      rw [hi] at heq
      injection heq with h'
      subst h'
      split
      · next e' heq2 =>
        rw [hie] at heq2
        injection heq2 with h''
        subst h''
        rfl
      · next heq2 => rw [hie] at heq2; cases heq2
  | inr hpos =>
    obtain ⟨r0, hp0, he0, hs0⟩ := hclean 0 hpos
    split
    · next e' heq => rw [hp0] at heq; cases heq
    · next r0' heq =>
      rw [hp0] at heq
      injection heq with h'
      subst h'
      split
      · next e' heq2 => rw [he0] at heq2; cases heq2
      · next heq2 =>
        rw [loop_execError polls i ri e hi hie fuel 1 r0 (Nat.le_refl 1) (by omega)
          (fun j hj1 hj2 => hclean j hj2) hs0 (by omega)]
        simp only [Option.map_some']
        have h1 : i + 1 - 1 + 1 = i + 1 := by omega
        have h2 : i + 1 - 1 = i := by omega
        rw [h1, h2]

lemma waitForSeal_rpcError (polls : Client) (fuel i : Nat) (e : String)
    (hclean : cleanUpTo polls i) (hi : polls i = PollResponse.rpcError e)
    (hf : i ≤ fuel) :
    waitForSeal polls fuel = some (Except.error (WaitError.rpc e), i + 1, i) := by
  rw [waitForSeal]
  cases Nat.eq_zero_or_pos i with
  | inl h0 =>
    subst h0
    split
    · next e' heq =>
      rw [hi] at heq
      injection heq with h'
      subst h'
      rfl
    · next r0 heq => rw [hi] at heq; cases heq
  | inr hpos =>
    obtain ⟨r0, hp0, he0, hs0⟩ := hclean 0 hpos
    split
    · next e' heq => rw [hp0] at heq; cases heq
    · next r0' heq =>
      rw [hp0] at heq
      injection heq with h'
      subst h'
      split
      · next e' heq2 => rw [he0] at heq2; cases heq2
      · next heq2 =>
        rw [loop_rpcError polls i e hi fuel 1 r0 (Nat.le_refl 1) (by omega)
          (fun j hj1 hj2 => hclean j hj2) hs0 (by omega)]
        simp only [Option.map_some']
        have h1 : i + 1 - 1 + 1 = i + 1 := by omega
        have h2 : i + 1 - 1 = i := by omega
        rw [h1, h2]

lemma waitForSeal_diverge (polls : Client)
    (hall : ∀ m, ∃ r, polls m = PollResponse.ok r ∧ r.error = none ∧
      r.status ≠ TransactionStatus.sealed)
    (fuel : Nat) : waitForSeal polls fuel = none := by
  rw [waitForSeal]
  obtain ⟨r0, hp0, he0, hs0⟩ := hall 0
  split
  · next e heq => rw [hp0] at heq; cases heq
  · next r0' heq =>
    rw [hp0] at heq
    injection heq with h'
    subst h'
    split
    · next e heq2 => rw [he0] at heq2; cases heq2
    · rw [loop_diverge polls hall fuel 1 r0 hs0]
      rfl

lemma waitForSeal_repoll_clean (polls : Client) (fuel : Nat)
    (o : Except WaitError TransactionResult) (p s : Nat)
    (h : waitForSeal polls fuel = some (o, p, s)) :
    ∀ j, j + 1 < p →
    ∃ r, polls j = PollResponse.ok r ∧ r.error = none ∧
      r.status ≠ TransactionStatus.sealed := by
  intro j hj
  rw [waitForSeal] at h
  split at h
  · simp only [Option.some.injEq, Prod.mk.injEq] at h
    obtain ⟨_, h2, _⟩ := h
    omega
  · next r0 hp0 =>
    split at h
    · simp only [Option.some.injEq, Prod.mk.injEq] at h
      obtain ⟨_, h2, _⟩ := h
      omega
    · next he0 =>
      cases hrec : waitForSealLoop polls r0 1 fuel with
      | none => rw [hrec] at h; exact absurd h (by simp)
      | some val =>
        obtain ⟨o2, p2, s2⟩ := val
        rw [hrec] at h
        simp only [Option.map_some', Option.some.injEq, Prod.mk.injEq] at h
        obtain ⟨ho, hp2, hs2⟩ := h
        cases Nat.eq_zero_or_pos j with
        | inl hj0 =>
          subst hj0
          refine ⟨r0, hp0, he0, ?_⟩
          intro hseal
          have hz := loop_sealed_entry polls r0 1 fuel o2 p2 s2 hrec hseal
          omega
        | inr hjpos =>
          exact loop_clean_prefix polls fuel 1 r0 o2 p2 s2 hrec j hjpos (by omega)

/-- A result whose first poll already reports Sealed with no error. -/
def sealedResult : TransactionResult := ⟨TransactionStatus.sealed, none⟩

/-- A client that always answers with `sealedResult`. -/
def sealedClient : Client := fun _ => PollResponse.ok sealedResult

/-- A result that is forever Pending with no error. -/
def pendingResult : TransactionResult := ⟨TransactionStatus.pending, none⟩

/-- A client that always answers with `pendingResult`. -/
def pendingClient : Client := fun _ => PollResponse.ok pendingResult

/-- A result carrying an execution error. -/
def execErrorResult : TransactionResult :=
  ⟨TransactionStatus.executed, some "execution failed"⟩

/-- A client whose first poll already carries an execution error. -/
def execErrorClient : Client := fun _ => PollResponse.ok execErrorResult

/-- A client whose every poll fails at the transport layer. -/
def rpcFailClient : Client := fun _ => PollResponse.rpcError "node unreachable"

/-- A concrete block and clients for `getLatestBlockId`. -/
def testBlock : Block := ⟨⟨[1, 2, 3]⟩⟩

/-- A block client whose `GetLatestBlock` succeeds with `testBlock`. -/
def okBlockClient : BlockClient := fun _ => Except.ok testBlock

/-- A block client whose `GetLatestBlock` fails. -/
def failBlockClient : BlockClient := fun _ => Except.error "node unreachable"

end FlowHelpers

namespace Keys

lemma runSerialized_spec (bs : List Bool) : ∀ (k : SigningKey),
    (runSerialized k bs).1.seqNumber = k.seqNumber + bs.count true ∧
    (runSerialized k bs).2.reduceOption = List.range' k.seqNumber (bs.count true) := by
  induction bs with
  | nil => intro k; simp [runSerialized]
  | cons b bs ih =>
    intro k
    cases b with
    | false =>
      obtain ⟨ihl, ihr⟩ := ih k
      constructor
      · simp [runSerialized, signAndSubmit, ihl, List.count_cons]
      · simp [runSerialized, signAndSubmit, ihr, List.count_cons]
    | true =>
      obtain ⟨ihl, ihr⟩ := ih ⟨k.seqNumber + 1⟩
      constructor
      · simp [runSerialized, signAndSubmit, ihl, List.count_cons]
        omega
      · simp [runSerialized, signAndSubmit, ihr, List.count_cons, List.range'_succ]

end Keys

namespace Jobs

lemma applyAll_terminal (j : Job) (hj : j.status.isTerminal = true) :
    ∀ ops : List Outcome, applyAll j ops = j := by
  intro ops
  induction ops with
  | nil => rfl
  | cons o os ih =>
    show applyAll (match transition j o with
      | Except.ok j' => j' | Except.error _ => j) os = j
    rw [transition.eq_def, if_pos hj]
    exact ih

/-- A job that has already completed, for concrete evaluation. -/
def doneJob : Job := ⟨Status.complete, some "0xf8d6e0586b0a20c7", none⟩

end Jobs

open FlowHelpers

/-- C1: for every execution of `WaitForSeal` that returns a nil error, the
returned transaction result has status Sealed and carries no execution
error; the result was obtained by repeatedly polling `GetTransactionResult`
(it is the last poll's response, every earlier poll reported an error-free,
not-yet-sealed result) and only once sealed was it returned as success. -/
theorem C1_success_is_sealed (polls : Client) (fuel : Nat)
    (r : TransactionResult) (p s : Nat)
    (h : waitForSeal polls fuel = some (Except.ok r, p, s)) :
    r.status = TransactionStatus.sealed ∧ r.error = none ∧ 1 ≤ p ∧
      polls (p - 1) = PollResponse.ok r ∧
      ∀ j, j + 1 < p → ∃ r', polls j = PollResponse.ok r' ∧ r'.error = none ∧
        r'.status ≠ TransactionStatus.sealed := by
  obtain ⟨h1, h2, h3, _, h5⟩ := waitForSeal_ok polls fuel r p s h
  exact ⟨h1, h2, h3, h5, waitForSeal_repoll_clean polls fuel _ p s h⟩

/-- Witness for C1 at a client whose first poll is already sealed. -/
theorem C1_success_is_sealed_witness :
    sealedResult.status = TransactionStatus.sealed ∧ sealedResult.error = none ∧
      1 ≤ 1 ∧ sealedClient 0 = PollResponse.ok sealedResult :=
  let x := C1_success_is_sealed sealedClient 1 sealedResult 1 0 rfl
  ⟨x.1, x.2.1, x.2.2.1, x.2.2.2.1⟩

/-- C2: a poll inside `WaitForSeal` whose result carries an execution error
makes `WaitForSeal` stop at that poll (it is the last of the `i + 1` polls
made) and return that execution error; and a result carrying an execution
error is never returned as the successful outcome. -/
theorem C2_exec_error_stops (polls : Client) (fuel i : Nat)
    (ri : TransactionResult) (e : String) :
    (cleanUpTo polls i → polls i = PollResponse.ok ri → ri.error = some e →
      i ≤ fuel →
      waitForSeal polls fuel =
        some (Except.error (WaitError.execution e), i + 1, i)) ∧
    (∀ r p s, waitForSeal polls fuel = some (Except.ok r, p, s) →
      r.error = none) :=
  ⟨fun hc hi hie hf => waitForSeal_execError polls fuel i ri e hc hi hie hf,
   fun r p s h => (waitForSeal_ok polls fuel r p s h).2.1⟩

/-- Witness for C2 at a client whose first poll carries an execution error. -/
theorem C2_exec_error_stops_witness :
    waitForSeal execErrorClient 0 =
      some (Except.error (WaitError.execution "execution failed"), 1, 0) :=
  (C2_exec_error_stops execErrorClient 0 0 execErrorResult "execution failed").1
    (fun j hj => absurd hj (Nat.not_lt_zero j)) rfl rfl (Nat.le_refl 0)

/-- C3: `Submit` on the Worker Pool never blocks: it is a total step that
accepts exactly when the outstanding count is below `W + Q` and otherwise
fails immediately with an admission error; with `W = 1` and `Q = 1`,
submitting 3 jobs in quick succession yields exactly 2 accepted submissions
followed by 1 admission failure. -/
theorem C3_admission_control (p : Jobs.WorkerPool) :
    (Jobs.isAccepted (Jobs.submit p).2 = true ↔
      p.outstanding < p.workers + p.backlogCap) ∧
    (Jobs.submitMany ⟨1, 1, 0⟩ 3).2 = [true, true, false] := by
  constructor
  · constructor
    · intro h
      by_contra hc
      rw [Jobs.submit, if_neg hc] at h
      simp [Jobs.isAccepted] at h
    · intro h
      rw [Jobs.submit, if_pos h]
      rfl
  · rfl

/-- Witness for C3 at the empty one-worker, one-slot-backlog pool. -/
theorem C3_admission_control_witness :
    Jobs.isAccepted (Jobs.submit ⟨1, 1, 0⟩).2 = true ∧
    (Jobs.submitMany ⟨1, 1, 0⟩ 3).2 = [true, true, false] :=
  ⟨((C3_admission_control ⟨1, 1, 0⟩).1).mpr (by decide),
   (C3_admission_control ⟨1, 1, 0⟩).2⟩

/-- C4: a fresh job satisfies the result/error exclusivity invariant and is
not terminal; once a job is terminal every transition attempt is rejected
with an error and any sequence of attempts leaves it unchanged; and a
successful transition always lands in a terminal state that satisfies the
invariant (result and error mutually exclusive, the terminal one set). -/
theorem C4_terminal_finality (j j' : Jobs.Job) (o : Jobs.Outcome)
    (ops : List Jobs.Outcome) :
    (Jobs.newJob.wf ∧ Jobs.newJob.status.isTerminal = false) ∧
    (j.status.isTerminal = true →
      (∃ msg, Jobs.transition j o = Except.error msg) ∧
        Jobs.applyAll j ops = j) ∧
    (Jobs.transition j o = Except.ok j' →
      j'.wf ∧ j'.status.isTerminal = true) := by
  refine ⟨⟨by decide, rfl⟩,
    fun ht => ⟨⟨"job already in a terminal state", ?_⟩,
      Jobs.applyAll_terminal j ht ops⟩,
    fun htr => ?_⟩
  · rw [Jobs.transition.eq_def, if_pos ht]
  · by_cases ht2 : j.status.isTerminal = true
    · rw [Jobs.transition.eq_def, if_pos ht2] at htr
      exact absurd htr (by simp)
    · cases o with
      | completeWith res =>
        rw [Jobs.transition.eq_def, if_neg ht2] at htr
        injection htr with hjj
        subst hjj
        exact ⟨by simp [Jobs.Job.wf], rfl⟩
      | failWith err =>
        rw [Jobs.transition.eq_def, if_neg ht2] at htr
        injection htr with hjj
        subst hjj
        exact ⟨by simp [Jobs.Job.wf], rfl⟩

/-- Witness for C4 at an already-completed job and at a fresh job driven to
completion. -/
theorem C4_terminal_finality_witness :
    ((∃ msg, Jobs.transition Jobs.doneJob (Jobs.Outcome.failWith "late") =
        Except.error msg) ∧
      Jobs.applyAll Jobs.doneJob [Jobs.Outcome.failWith "late"] = Jobs.doneJob) ∧
    ((⟨Jobs.Status.complete, some "done", none⟩ : Jobs.Job).wf ∧
      (⟨Jobs.Status.complete, some "done", none⟩ : Jobs.Job).status.isTerminal =
        true) :=
  ⟨(C4_terminal_finality Jobs.doneJob Jobs.doneJob (Jobs.Outcome.failWith "late")
      [Jobs.Outcome.failWith "late"]).2.1 rfl,
   (C4_terminal_finality Jobs.newJob ⟨Jobs.Status.complete, some "done", none⟩
      (Jobs.Outcome.completeWith "done") []).2.2 rfl⟩

/-- C5: N signing operations against the same key, serialized under the
key's mutual-exclusion scope, consume pairwise distinct sequence numbers
(in fact exactly the consecutive numbers starting at the key's current
one); the key's sequence number only increases and advances exactly once
per successful signing, while failed operations consume nothing. -/
theorem C5_serialized_signing (k : Keys.SigningKey) (bs : List Bool) :
    ((Keys.runSerialized k bs).2.reduceOption).Nodup ∧
    (Keys.runSerialized k bs).2.reduceOption =
      List.range' k.seqNumber (bs.count true) ∧
    (Keys.runSerialized k bs).1.seqNumber = k.seqNumber + bs.count true ∧
    k.seqNumber ≤ (Keys.runSerialized k bs).1.seqNumber := by
  obtain ⟨h1, h2⟩ := Keys.runSerialized_spec bs k
  refine ⟨?_, h2, h1, by omega⟩
  rw [h2]
  exact List.nodup_range' k.seqNumber (bs.count true)

/-- C6: the confirmation wait has no built-in upper bound: on a response
stream in which the status never becomes Sealed and no transport or
execution error is ever reported, `WaitForSeal` never returns, whatever
number of iterations it is allowed. -/
theorem C6_no_poll_bound (polls : Client)
    (h : ∀ n, ∃ r, polls n = PollResponse.ok r ∧ r.error = none ∧
      r.status ≠ TransactionStatus.sealed)
    (fuel : Nat) :
    waitForSeal polls fuel = none :=
  waitForSeal_diverge polls h fuel

/-- Witness for C6 at a client that forever answers Pending. -/
theorem C6_no_poll_bound_witness : waitForSeal pendingClient 5 = none :=
  C6_no_poll_bound pendingClient
    (fun _ => ⟨pendingResult, rfl, rfl, by decide⟩) 5

/-- C7: a poll on which `GetTransactionResult` fails at the transport layer
makes `WaitForSeal` return that error immediately: the failing call is the
last of the `i + 1` polls made, with no retry; and in every run a re-poll
happens only after a successful status check that is not yet sealed. -/
theorem C7_rpc_error_propagates (polls : Client) (fuel i : Nat) (e : String) :
    (cleanUpTo polls i → polls i = PollResponse.rpcError e → i ≤ fuel →
      waitForSeal polls fuel = some (Except.error (WaitError.rpc e), i + 1, i)) ∧
    (∀ o p s, waitForSeal polls fuel = some (o, p, s) → ∀ j, j + 1 < p →
      ∃ r, polls j = PollResponse.ok r ∧ r.error = none ∧
        r.status ≠ TransactionStatus.sealed) :=
  ⟨fun hc hi hf => waitForSeal_rpcError polls fuel i e hc hi hf,
   fun o p s h => waitForSeal_repoll_clean polls fuel o p s h⟩

/-- Witness for C7 at a client whose very first poll fails at the transport
layer. -/
theorem C7_rpc_error_propagates_witness :
    waitForSeal rpcFailClient 0 =
      some (Except.error (WaitError.rpc "node unreachable"), 1, 0) :=
  (C7_rpc_error_propagates rpcFailClient 0 0 "node unreachable").1
    (fun j hj => absurd hj (Nat.not_lt_zero j)) rfl (Nat.le_refl 0)

/-- C8: an account created via the synchronous or the asynchronous path is
returned with an empty key list, while the generated key record itself
stays inside the key subsystem's store. -/
theorem C8_no_key_exposure (addr : String) (gk : Keys.AccountKeyRecord) :
    (Accounts.createSync addr gk).keys = [] ∧
    (Accounts.createAsyncDetails addr gk).keys = [] ∧
    (Accounts.createAccount addr gk).savedKeys ≠ [] :=
  ⟨rfl, rfl, by simp [Accounts.createAccount]⟩

/-- C9: `GetLatestBlockId` asks the Chain Client for the latest block with
the sealed-only flag set (its answer depends only on the sealed-only call),
returns exactly that block's ID on success, and returns the zero identifier
together with the error whenever `GetLatestBlock` fails. -/
theorem C9_getLatestBlockId_spec (c c' : BlockClient) (b : Block) (e : String) :
    (c true = Except.ok b → getLatestBlockId c = (b.id, none)) ∧
    (c true = Except.error e → getLatestBlockId c = (zeroIdentifier, some e)) ∧
    (c true = c' true → getLatestBlockId c = getLatestBlockId c') := by
  refine ⟨fun h => ?_, fun h => ?_, fun h => ?_⟩
  · rw [getLatestBlockId, h]
  · rw [getLatestBlockId, h]
  · rw [getLatestBlockId, getLatestBlockId, h]

/-- Witness for C9 at a succeeding and at a failing block client. -/
theorem C9_getLatestBlockId_spec_witness :
    getLatestBlockId okBlockClient = (testBlock.id, none) ∧
    getLatestBlockId failBlockClient = (zeroIdentifier, some "node unreachable") ∧
    getLatestBlockId okBlockClient = getLatestBlockId okBlockClient :=
  ⟨(C9_getLatestBlockId_spec okBlockClient okBlockClient testBlock "e").1 rfl,
   (C9_getLatestBlockId_spec failBlockClient failBlockClient testBlock
      "node unreachable").2.1 rfl,
   (C9_getLatestBlockId_spec okBlockClient okBlockClient testBlock "e").2.2 rfl⟩

/-- C10: when the very first `GetTransactionResult` call reports Sealed with
no execution error and no transport error, `WaitForSeal` returns that
result immediately: exactly one poll is made and no sleep occurs. -/
theorem C10_first_poll_sealed (polls : Client) (fuel : Nat)
    (r : TransactionResult) (h0 : polls 0 = PollResponse.ok r)
    (hs : r.status = TransactionStatus.sealed) (he : r.error = none)
    (hf : 1 ≤ fuel) :
    waitForSeal polls fuel = some (Except.ok r, 1, 0) := by
  cases fuel with
  | zero => omega
  | succ fuel =>
    rw [waitForSeal]
    split
    · next e heq => rw [h0] at heq; cases heq
    · next r0 heq =>
      rw [h0] at heq
      injection heq with h'
      subst h'
      split
      · next e heq2 => rw [he] at heq2; cases heq2
      · rw [waitForSealLoop, if_pos hs]
        rfl

/-- Witness for C10 at a client whose first poll is already sealed. -/
theorem C10_first_poll_sealed_witness :
    waitForSeal sealedClient 3 = some (Except.ok sealedResult, 1, 0) :=
  C10_first_poll_sealed sealedClient 3 sealedResult rfl rfl rfl
    (by decide)
